import Mathlib

/-!
Verification of the OpsPilot reconciliation core against its specification.

The reconciliation engine (Tolerance Evaluator, Matcher, N-Way Resolver,
Break Classifier, Clustering Engine) is embedded shallowly below; numeric
field values are modelled as rationals so that all tolerance arithmetic is
exact and decidable.  The CSV export helper from the frontend
(`apps/frontend/src/lib/utils.ts`) is embedded at the end of the file.
-/

attribute [local semireducible] Rat.add Rat.sub Rat.mul Rat.inv

namespace OpsPilot

/-- Modelled from the spec: the tagged-union `Value` type for dynamic record
fields (§9); numeric and string payloads suffice for the verified claims. -/
inductive Value where
  | num (q : ℚ)
  | str (s : String)
deriving DecidableEq, Repr

/-- Modelled from the spec: a `TradeRecord` is an immutable, source-tagged
set of named fields (§3). Fields are an ordered association list. -/
structure TradeRecord where
  sourceId : String
  recordId : String
  fields : List (String × Value)
deriving DecidableEq, Repr

/-- Field lookup on a TradeRecord: first binding of the given name. -/
def lookupField (r : TradeRecord) (f : String) : Option Value :=
  (r.fields.find? (fun p => p.1 = f)).map (fun p => p.2)

/-- Modelled from the spec: the four tolerance-rule kinds (§3, §4.1). -/
inductive ToleranceKind where
  | EXACT
  | ABS_DELTA
  | PCT_DELTA
  | DATE_WINDOW
deriving DecidableEq, Repr

/-- Modelled from the spec: `ToleranceRule = {field, kind, threshold}` with a
non-negative threshold; EXACT ignores the threshold (§3). -/
structure ToleranceRule where
  field : String
  kind : ToleranceKind
  threshold : ℚ
deriving DecidableEq, Repr

/-- Result of one tolerance evaluation (§4.1). -/
structure EvalResult where
  withinTolerance : Bool
  delta : ℚ
deriving DecidableEq, Repr

/-- Modelled from the spec: the Tolerance Evaluator contract
`evaluate(rule, left, right)` (§4.1).
EXACT compares by value; ABS_DELTA checks `|left - right| <= threshold`;
PCT_DELTA checks `|left - right| / max(|left|, epsilon) <= threshold`, and
when the base value is zero only an absolute comparison of `|left - right|`
against `threshold * epsilon` is performed; DATE_WINDOW checks the absolute
day difference against the threshold. -/
def evaluate (epsilon : ℚ) (rule : ToleranceRule) (left right : ℚ) : EvalResult :=
  match rule.kind with
  | .EXACT => ⟨decide (left = right), |left - right|⟩
  | .ABS_DELTA => ⟨decide (|left - right| ≤ rule.threshold), |left - right|⟩
  | .PCT_DELTA =>
      if left = 0 then
        ⟨decide (|left - right| ≤ rule.threshold * epsilon), |left - right|⟩
      else
        ⟨decide (|left - right| / max |left| epsilon ≤ rule.threshold),
          |left - right| / max |left| epsilon⟩
  | .DATE_WINDOW => ⟨decide (|left - right| ≤ rule.threshold), |left - right|⟩

/-- Modelled from the spec: a `MatchKey` is an ordered list of field names
with a priority rank; lower rank is tried first (§3). -/
structure MatchKey where
  fields : List String
  rank : Nat
deriving DecidableEq, Repr

/-- Modelled from the spec: the recognized configuration options of a
reconciliation run (§6), restricted to the parts the core consumes. -/
structure MatchConfig where
  matchKeys : List MatchKey
  toleranceRules : List ToleranceRule
  epsilon : ℚ
  stalenessThresholdDays : ℚ
  minClusterSize : Nat
  clusterSimilarityThreshold : ℚ
  fieldsUniverse : List String

/-- Key-component values of a record: `some` only when every component field
of the key is present (§4.2). -/
def keyVals (k : MatchKey) (r : TradeRecord) : Option (List Value) :=
  k.fields.mapM (fun f => lookupField r f)

/-- Modelled from the spec: a MatchKey agrees on two records when all its
component fields are present and equal on both sides (§4.2). -/
def keyMatches (k : MatchKey) (l r : TradeRecord) : Bool :=
  match keyVals k l, keyVals k r with
  | some vl, some vr => decide (vl = vr)
  | _, _ => false

/-- Modelled from the spec: probe the right-side records in key-priority
order and return the candidate set of the first key that hits (§4.3). -/
def probe : List MatchKey → TradeRecord → List TradeRecord → List TradeRecord
  | [], _, _ => []
  | k :: ks, l, rights =>
      if (rights.filter (fun r => keyMatches k l r)).isEmpty then probe ks l rights
      else rights.filter (fun r => keyMatches k l r)

/-- One per-field comparison outcome inside a Matched pair (§3 `Diff`). -/
structure Diff where
  field : String
  delta : ℚ
  threshold : ℚ
  within : Bool
deriving DecidableEq, Repr

/-- Per-field tolerance evaluation for one configured rule: evaluated only
when both sides carry a numeric value for the field (§4.1: a missing field is
not evaluated). -/
def fieldDiff (epsilon : ℚ) (rule : ToleranceRule) (l r : TradeRecord) : Option Diff :=
  match lookupField l rule.field, lookupField r rule.field with
  | some (.num a), some (.num b) =>
      let res := evaluate epsilon rule a b
      some ⟨rule.field, res.delta, rule.threshold, res.withinTolerance⟩
  | _, _ => none

/-- All non-key field comparisons of a candidate pair under the configured
tolerance rules (§4.3). -/
def compareFields (cfg : MatchConfig) (l r : TradeRecord) : List Diff :=
  cfg.toleranceRules.filterMap (fun rule => fieldDiff cfg.epsilon rule l r)

/-- Modelled from the spec: `MatchResult` (§3), extended with the ambiguous
outcome of §4.3 in which several candidates share the key of one left record. -/
inductive MatchResult where
  | Matched (left right : TradeRecord) (withinTolerance : Bool) (diffs : List Diff)
  | Ambiguous (left : TradeRecord) (candidates : List TradeRecord)
  | UnmatchedLeft (left : TradeRecord)
  | UnmatchedRight (right : TradeRecord)
deriving DecidableEq, Repr

/-- Modelled from the spec: process one left record against the currently
unclaimed right records (§4.3): exactly one candidate gives `Matched` and
claims the candidate; several candidates give the ambiguous outcome and claim
them all (none is silently picked); no candidate gives `UnmatchedLeft`. -/
def matchStep (cfg : MatchConfig) (l : TradeRecord) (rights : List TradeRecord) :
    MatchResult × List TradeRecord :=
  match probe cfg.matchKeys l rights with
  | [] => (.UnmatchedLeft l, rights)
  | [c] =>
      let ds := compareFields cfg l c
      (.Matched l c (ds.all (fun d => d.within)) ds,
        rights.filter (fun r => decide (r ≠ c)))
  | c1 :: c2 :: cs =>
      (.Ambiguous l (c1 :: c2 :: cs),
        rights.filter (fun r => decide (r ∉ c1 :: c2 :: cs)))

/-- Fold of `matchStep` over the left records, threading the pool of
unclaimed right records (§4.3). -/
def runMatcherAux (cfg : MatchConfig) :
    List TradeRecord → List TradeRecord → List MatchResult × List TradeRecord
  | [], rights => ([], rights)
  | l :: ls, rights =>
      let step := matchStep cfg l rights
      let rest := runMatcherAux cfg ls step.2
      (step.1 :: rest.1, rest.2)

/-- Modelled from the spec: the two-source Matcher (§4.3) — process every
left record, then mark the right records never claimed as `UnmatchedRight`. -/
def runMatcher (cfg : MatchConfig) (lefts rights : List TradeRecord) :
    List MatchResult :=
  let aux := runMatcherAux cfg lefts rights
  aux.1 ++ aux.2.map .UnmatchedRight

/-- Modelled from the spec: the Exception kinds (§3, §4.4): the three 2-way
kinds plus the distinct N-way kind `MISSING_AUTHORITATIVE`. -/
inductive ExKind where
  | MISSING_LEFT
  | MISSING_RIGHT
  | FIELD_MISMATCH
  | MISSING_AUTHORITATIVE
deriving DecidableEq, Repr

/-- Modelled from the spec: exception severities (§4.5). -/
inductive Severity where
  | LOW
  | MEDIUM
  | HIGH
deriving DecidableEq, Repr

/-- Modelled from the spec: an `Exception` record (§3); `ambiguous` is the
reserved marker of §4.5 and `clusterId` is assigned post-hoc. -/
structure RecException where
  id : Nat
  kind : ExKind
  severity : Severity
  ambiguous : Bool
  sourceRecords : List TradeRecord
  diffs : List Diff
deriving DecidableEq, Repr

/-- Normalized magnitude of one diff: the delta/threshold ratio (§4.5). -/
def normMag (d : Diff) : ℚ := |d.delta| / d.threshold

/-- Modelled from the spec: severity from a delta/threshold ratio (§4.5):
ratio < 2 gives LOW, 2 to 5 gives MEDIUM, above 5 gives HIGH. -/
def severityOfNorm (r : ℚ) : Severity :=
  if r < 2 then .LOW else if r ≤ 5 then .MEDIUM else .HIGH

/-- Worst (largest) delta/threshold ratio among the violating diffs (§4.5). -/
def worstNorm (ds : List Diff) : ℚ :=
  (ds.filter (fun d => !d.within)).foldr (fun d m => max (normMag d) m) 0

/-- Age of a record in days, read from the conventional `age_days` field the
external normalizer attaches; zero when absent (§4.5 staleness input). -/
def recordAge (r : TradeRecord) : ℚ :=
  match lookupField r "age_days" with
  | some (.num a) => a
  | _ => 0

/-- Modelled from the spec: MISSING_* severity (§4.5): HIGH when the record
age exceeds the staleness threshold, else MEDIUM. -/
def missingSeverity (cfg : MatchConfig) (r : TradeRecord) : Severity :=
  if cfg.stalenessThresholdDays < recordAge r then .HIGH else .MEDIUM

/-- Modelled from the spec: the Break Classifier (§4.5), mapping a
non-trivial MatchResult to an Exception. Matched-within-tolerance produces
nothing; Matched-outside-tolerance produces FIELD_MISMATCH with severity from
the worst violating ratio; the ambiguous outcome produces FIELD_MISMATCH with
the reserved marker and severity forced to HIGH; unmatched records produce
MISSING_LEFT / MISSING_RIGHT with the staleness-derived severity. -/
def classifyResult (cfg : MatchConfig) : MatchResult → Option RecException
  | .Matched _ _ true _ => none
  | .Matched l r false ds =>
      some ⟨0, .FIELD_MISMATCH, severityOfNorm (worstNorm ds), false, [l, r], ds⟩
  | .Ambiguous l cs =>
      some ⟨0, .FIELD_MISMATCH, .HIGH, true, l :: cs, []⟩
  | .UnmatchedLeft l =>
      some ⟨0, .MISSING_LEFT, missingSeverity cfg l, false, [l], []⟩
  | .UnmatchedRight r =>
      some ⟨0, .MISSING_RIGHT, missingSeverity cfg r, false, [r], []⟩

/-- Exceptions of a result list before id assignment. -/
def exceptionsPre (cfg : MatchConfig) (results : List MatchResult) : List RecException :=
  results.filterMap (classifyResult cfg)

/-- Sequential id assignment over a freshly classified exception list. -/
def withIds (es : List RecException) : List RecException :=
  es.enum.map (fun p => { p.2 with id := p.1 })

/-- Exceptions of a two-way reconciliation run (§4.3 then §4.5). -/
def runExceptions (cfg : MatchConfig) (lefts rights : List TradeRecord) :
    List RecException :=
  withIds (exceptionsPre cfg (runMatcher cfg lefts rights))

/-- Priority order on exceptions: compare by exception id (§4.6 tie-break). -/
def idLE (a b : RecException) : Prop := a.id ≤ b.id

instance : DecidableRel idLE := fun a b => Nat.decLe a.id b.id

instance : IsTotal RecException idLE := ⟨fun a b => Nat.le_total a.id b.id⟩

instance : IsTrans RecException idLE := ⟨fun _ _ _ h1 h2 => Nat.le_trans h1 h2⟩

/-- Modelled from the spec: the Clustering Engine fixes the processing order
by sorting the exception set by exception id, not insertion order (§4.6). -/
def sortById (es : List RecException) : List RecException :=
  List.insertionSort idLE es

/-- Modelled from the spec: the fixed-dimension difference vector of an
exception — one dimension per canonical field, normalized magnitude, zero when
the field is not involved (§4.6). -/
def diffVector (univ : List String) (e : RecException) : List ℚ :=
  univ.map (fun f =>
    match e.diffs.find? (fun d => d.field = f) with
    | some d => normMag d
    | none => 0)

/-- Dot product of two rational vectors. -/
def dotQ : List ℚ → List ℚ → ℚ
  | a :: as, b :: bs => a * b + dotQ as bs
  | _, _ => 0

/-- Modelled from the spec: the cosine-similarity test of §4.6, encoded over
rationals: cosine similarity strictly exceeds the threshold exactly when the
dot product is positive and its square exceeds the squared threshold times
the product of the squared norms. -/
def simExc (univ : List String) (theta : ℚ) (a b : RecException) : Bool :=
  let v := diffVector univ a
  let w := diffVector univ b
  let d := dotQ v w
  decide (0 < d) && decide (theta ^ 2 * (dotQ v v * dotQ w w) < d ^ 2)

/-- Single-link agglomeration step: merge the new exception with every group
holding a similar member (greedy union over the similarity graph, §4.6). -/
def addToGroups (sim : RecException → RecException → Bool) (e : RecException)
    (groups : List (List RecException)) : List (List RecException) :=
  let part := groups.partition (fun g => g.any (fun x => sim e x))
  (e :: part.1.flatten) :: part.2

/-- Connected components of the similarity graph, built by folding the
agglomeration step over the exception list (§4.6). -/
def components (sim : RecException → RecException → Bool)
    (es : List RecException) : List (List RecException) :=
  es.foldl (fun gs e => addToGroups sim e gs) []

/-- Modelled from the spec: a `Cluster` (§3). -/
structure Cluster where
  cid : Nat
  members : List Nat
  centroid : List ℚ
  probableCause : String
deriving DecidableEq, Repr

/-- Centroid of a candidate group: componentwise mean of the members'
difference vectors (§4.6). -/
def centroidOf (univ : List String) (g : List RecException) : List ℚ :=
  let total := (g.map (diffVector univ)).foldr (List.zipWith (· + ·))
    (univ.map (fun _ => (0 : ℚ)))
  total.map (fun x => x / (g.length : ℚ))

/-- Field of largest contribution, scanning an association of fields to
centroid entries. -/
def argmaxField : List (String × ℚ) → String × ℚ → String × ℚ
  | [], best => best
  | p :: ps, best => argmaxField ps (if best.2 < p.2 then p else best)

/-- Modelled from the spec: `probableCause` is the field with the largest
contribution to the cluster centroid vector (§4.6). -/
def probableCauseOf (univ : List String) (cen : List ℚ) : String :=
  (argmaxField (univ.zip cen) ("", 0)).1

/-- Modelled from the spec: the Clustering Engine contract
`cluster(exceptions, minClusterSize)` (§4.6): sort by exception id, build
similarity components, discard candidate groups smaller than
`minClusterSize`, and emit the kept groups as Clusters. -/
def cluster (cfg : MatchConfig) (es : List RecException) : List Cluster :=
  let sorted := sortById es
  let comps := components
    (simExc cfg.fieldsUniverse cfg.clusterSimilarityThreshold) sorted
  let kept := comps.filter (fun g => cfg.minClusterSize ≤ g.length)
  kept.enum.map (fun p =>
    let cen := centroidOf cfg.fieldsUniverse p.2
    ⟨p.1, p.2.map (fun e => e.id), cen, probableCauseOf cfg.fieldsUniverse cen⟩)

/-- Post-hoc cluster-id assignment of §3: the id of the first output cluster
holding the exception, `none` when the exception was left unclustered. -/
def clusterIdOf (cfg : MatchConfig) (es : List RecException)
    (e : RecException) : Option Nat :=
  ((cluster cfg es).find? (fun c => c.members.contains e.id)).map (fun c => c.cid)

/-- Full two-way pipeline: Matcher, Break Classifier, Clustering Engine. -/
def fullRun (cfg : MatchConfig) (lefts rights : List TradeRecord) :
    List MatchResult × List RecException × List Cluster :=
  let results := runMatcher cfg lefts rights
  let excs := withIds (exceptionsPre cfg results)
  (results, excs, cluster cfg excs)

/-- Trade identity of a record for N-way dedup: the values of the
highest-priority match key whose component fields are all present. -/
def keyOf (cfg : MatchConfig) (r : TradeRecord) : Option (List Value) :=
  cfg.matchKeys.findSome? (fun k => keyVals k r)

/-- Modelled from the spec: the N-Way Resolver's treatment of records present
in a non-authoritative source but absent from the authority (§4.4): collect
them across all non-authoritative sources, deduplicate by trade identity, and
raise one `MISSING_AUTHORITATIVE` exception of severity HIGH per distinct
trade, covering every source record that showed it. -/
def nwayMissingAuth (cfg : MatchConfig) (auth : List TradeRecord)
    (others : List (List TradeRecord)) : List RecException :=
  let missing := others.flatten.filter (fun r => (probe cfg.matchKeys r auth).isEmpty)
  let keys := (missing.map (fun r => keyOf cfg r)).dedup
  keys.map (fun k =>
    ⟨0, .MISSING_AUTHORITATIVE, .HIGH, false,
      missing.filter (fun r => decide (keyOf cfg r = k)), []⟩)

/-- Shape of an exception: everything except the post-hoc assigned id. -/
def excShape (e : RecException) :
    ExKind × Severity × Bool × List TradeRecord × List Diff :=
  (e.kind, e.severity, e.ambiguous, e.sourceRecords, e.diffs)

/-- Sample left record of the worked tolerance scenario (§8): price 10.00. -/
def recT1L : TradeRecord :=
  ⟨"INTERNAL", "L1", [("trade_id", .str "T1"), ("price", .num 10)]⟩

/-- Sample right record of the worked tolerance scenario (§8): price 10.20. -/
def recT1R : TradeRecord :=
  ⟨"BROKER", "R1", [("trade_id", .str "T1"), ("price", .num (51/5))]⟩

/-- Sample configuration: trade_id match key, ABS_DELTA 0.10 on price. -/
def cfgEx : MatchConfig :=
  ⟨[⟨["trade_id"], 0⟩], [⟨"price", .ABS_DELTA, 1/10⟩], 1/1000, 30, 2, 4/5, ["price"]⟩

/-- Sample unclustered exception for the C6 witness. -/
def excW : RecException :=
  ⟨0, .FIELD_MISMATCH, .MEDIUM, false, [], [⟨"price", 1/5, 1/10, false⟩]⟩

/-- Broker view of trade T1 for the C8 witness. -/
def brokerT1 : TradeRecord :=
  ⟨"BROKER", "B1", [("trade_id", .str "T1"), ("price", .num 10)]⟩

/-- Internal view of trade T1 for the C8 witness, disagreeing on price. -/
def internalT1 : TradeRecord :=
  ⟨"INTERNAL", "I1", [("trade_id", .str "T1"), ("price", .num 11)]⟩

/-- Second sample exception, with a distinct id, for permutation witnesses. -/
def excW2 : RecException :=
  ⟨1, .FIELD_MISMATCH, .LOW, false, [], [⟨"qty", 1, 10, false⟩]⟩

/-- A CSV cell value as the TypeScript `downloadCSV` sees it: a string
(subject to comma-quoting) or any other value already rendered to text by
`Array.prototype.join` (numbers, booleans; emitted verbatim). -/
inductive CsvValue where
  | str (s : String)
  | raw (s : String)
deriving DecidableEq, Repr

/-- One input object of `downloadCSV`: its keys in `Object.keys` order with
their values. -/
abbrev CsvRow := List (String × CsvValue)

/-- Lookup of `row[header]`: first binding, `none` when the key is absent. -/
def csvLookup (row : CsvRow) (k : String) : Option CsvValue :=
  (row.find? (fun p => p.1 = k)).map (fun p => p.2)

/-- Embedded from `downloadCSV` (utils.ts:34-38): a string value holding a
comma is wrapped in double quotes; any other string is emitted verbatim with
no escaping of embedded quotes or newlines; non-string values are emitted
verbatim; an absent key joins as the empty string. -/
def renderCell (row : CsvRow) (k : String) : String :=
  match csvLookup row k with
  | some (.str s) => if s.toList.contains ',' then "\"" ++ s ++ "\"" else s
  | some (.raw v) => v
  | none => ""

/-- One data line of the CSV: the values of exactly the given headers, in
that order, joined with commas (utils.ts:33-39). -/
def renderLine (headers : List String) (row : CsvRow) : String :=
  String.intercalate "," (headers.map (fun h => renderCell row h))

/-- Embedded from `downloadCSV` (utils.ts:27-41): for an empty array the
function returns immediately and produces nothing; otherwise the content is
the header line — the comma-joined keys of the first element — followed by
one line per row over exactly those headers, all joined with newlines. -/
def csvContent : List CsvRow → Option String
  | [] => none
  | r0 :: rest =>
      some (String.intercalate "\n"
        (String.intercalate "," (r0.map (fun p => p.1)) ::
          (r0 :: rest).map (fun row => renderLine (r0.map (fun p => p.1)) row)))

/-- First candidate (if any) in a pool sharing the record's match key. -/
def mateIn (k : MatchKey) (pool : List TradeRecord) (x : TradeRecord) :
    Option TradeRecord :=
  match pool.filter (fun y => keyMatches k x y) with
  | [] => none
  | c :: _ => some c

/-- Total version of `mateIn`, returning the record itself when unmated. -/
def mateFun (k : MatchKey) (pool : List TradeRecord) (x : TradeRecord) :
    TradeRecord :=
  (mateIn k pool x).getD x

/-- One-shot match outcome of one record against a fixed pool; characterizes
the Matcher under duplicate-free single-key configurations. -/
def oneStep (cfg : MatchConfig) (k : MatchKey) (pool : List TradeRecord)
    (x : TradeRecord) : MatchResult :=
  match mateIn k pool x with
  | some c => .Matched x c ((compareFields cfg x c).all (fun d => d.within))
      (compareFields cfg x c)
  | none => .UnmatchedLeft x

/-- Kind relabeling for the symmetry property: MISSING_LEFT and
MISSING_RIGHT swap; the other kinds are unchanged. -/
def swapKind : ExKind → ExKind
  | .MISSING_LEFT => .MISSING_RIGHT
  | .MISSING_RIGHT => .MISSING_LEFT
  | .FIELD_MISMATCH => .FIELD_MISMATCH
  | .MISSING_AUTHORITATIVE => .MISSING_AUTHORITATIVE

/-- Exception relabeling when the two sides of a run are swapped: the
missing kinds are exchanged and the source-record pair order reversed. -/
def relabelSwap (e : RecException) : RecException :=
  { e with kind := swapKind e.kind, sourceRecords := e.sourceRecords.reverse }

/-- First of two duplicate left-side records sharing trade_id T1. -/
def recA1 : TradeRecord := ⟨"A", "A1", [("trade_id", .str "T1")]⟩

/-- Second of two duplicate left-side records sharing trade_id T1. -/
def recA2 : TradeRecord := ⟨"A", "A2", [("trade_id", .str "T1")]⟩

/-- Single right-side record with trade_id T1. -/
def recB1 : TradeRecord := ⟨"B", "B1", [("trade_id", .str "T1")]⟩

/-- Two-key configuration: trade_id at rank 0, alt_id at rank 1, no
tolerance rules; key values are duplicate-free in the symmetry scenarios. -/
def cfg9b : MatchConfig :=
  ⟨[⟨["trade_id"], 0⟩, ⟨["alt_id"], 1⟩], [], 1/1000, 30, 2, 4/5, []⟩

/-- Left record matching recK2 by trade_id and recK1 by alt_id. -/
def recKL : TradeRecord :=
  ⟨"L", "L1", [("trade_id", .str "A"), ("alt_id", .str "B")]⟩

/-- Right record matching recKL only by the lower-priority alt_id key. -/
def recK1 : TradeRecord :=
  ⟨"R", "R1", [("trade_id", .str "C"), ("alt_id", .str "B")]⟩

/-- Right record matching recKL by the top-priority trade_id key. -/
def recK2 : TradeRecord :=
  ⟨"R", "R2", [("trade_id", .str "A"), ("alt_id", .str "D")]⟩

/-- Single-key configuration with an asymmetric PCT_DELTA price rule at
threshold 18%. -/
def cfg9c : MatchConfig :=
  ⟨[⟨["trade_id"], 0⟩], [⟨"price", .PCT_DELTA, 9/50⟩], 1/1000, 30, 2, 4/5, ["price"]⟩

/-- Price-10 view of trade T1 (the PCT_DELTA base on the forward run). -/
def recP1 : TradeRecord :=
  ⟨"L", "P1", [("trade_id", .str "T1"), ("price", .num 10)]⟩

/-- Price-12 view of trade T1. -/
def recP2 : TradeRecord :=
  ⟨"R", "P2", [("trade_id", .str "T1"), ("price", .num 12)]⟩

/-- Occurrence of a record on the left side of a MatchResult. -/
def occursLeft (t : TradeRecord) : MatchResult → Bool
  | .Matched l _ _ _ => decide (t = l)
  | .Ambiguous l _ => decide (t = l)
  | .UnmatchedLeft l => decide (t = l)
  | .UnmatchedRight _ => false

/-- Occurrence of a record on the right side of a MatchResult (as the
matched candidate, among the ambiguous candidates, or unmatched-right). -/
def occursRight (t : TradeRecord) : MatchResult → Bool
  | .Matched _ r _ _ => decide (t = r)
  | .Ambiguous _ cs => decide (t ∈ cs)
  | .UnmatchedLeft _ => false
  | .UnmatchedRight r => decide (t = r)

/-- Occurrence of a record anywhere in a MatchResult. -/
def occursIn (t : TradeRecord) (res : MatchResult) : Bool :=
  occursLeft t res || occursRight t res

end OpsPilot

namespace OpsPilot

/-- C1: for every ABS_DELTA rule with non-negative threshold T and all numeric
values, `evaluate` reports within-tolerance exactly when `|left - right| ≤ T`;
a delta of exactly T is within tolerance and any strictly larger delta is not. -/
theorem abs_delta_within_iff (epsilon : ℚ) (rule : ToleranceRule)
    (hk : rule.kind = ToleranceKind.ABS_DELTA) (_hT : 0 ≤ rule.threshold)
    (left right : ℚ) :
    ((evaluate epsilon rule left right).withinTolerance = true ↔
      |left - right| ≤ rule.threshold) ∧
    (|left - right| = rule.threshold →
      (evaluate epsilon rule left right).withinTolerance = true) ∧
    (rule.threshold < |left - right| →
      (evaluate epsilon rule left right).withinTolerance = false) := by
  unfold evaluate
  rw [hk]
  refine ⟨by simp, ?_, ?_⟩
  · intro h; simp [h]
  · intro h; simpa using not_le.mpr h

/-- Witness for C1: threshold 1/10 with values 3 and 31/10 (delta exactly the
threshold) is within tolerance. -/
theorem abs_delta_within_iff_witness :
    ((evaluate 0 ⟨"price", ToleranceKind.ABS_DELTA, 1/10⟩ 3 (31/10)).withinTolerance = true ↔
      |(3 : ℚ) - 31/10| ≤ 1/10) ∧
    (|(3 : ℚ) - 31/10| = 1/10 →
      (evaluate 0 ⟨"price", ToleranceKind.ABS_DELTA, 1/10⟩ 3 (31/10)).withinTolerance = true) ∧
    ((1 : ℚ)/10 < |(3 : ℚ) - 31/10| →
      (evaluate 0 ⟨"price", ToleranceKind.ABS_DELTA, 1/10⟩ 3 (31/10)).withinTolerance = false) :=
  abs_delta_within_iff 0 ⟨"price", ToleranceKind.ABS_DELTA, 1/10⟩ rfl (by norm_num) 3 (31/10)

/-- C7: for every PCT_DELTA rule with threshold t and positive epsilon,
`evaluate` reports within-tolerance exactly when
`|left - right| / max(|left|, epsilon) ≤ t`; and when the base value is zero
the result is exactly the absolute comparison of `|left - right|` against
`t * epsilon`. -/
theorem pct_delta_within_iff (epsilon : ℚ) (rule : ToleranceRule)
    (hk : rule.kind = ToleranceKind.PCT_DELTA) (heps : 0 < epsilon)
    (left right : ℚ) :
    ((evaluate epsilon rule left right).withinTolerance = true ↔
      |left - right| / max |left| epsilon ≤ rule.threshold) ∧
    (left = 0 →
      (evaluate epsilon rule left right).withinTolerance =
        decide (|left - right| ≤ rule.threshold * epsilon)) := by
  by_cases h0 : left = 0
  · subst h0
    have he : evaluate epsilon rule 0 right =
        ⟨decide (|(0 : ℚ) - right| ≤ rule.threshold * epsilon), |(0 : ℚ) - right|⟩ := by
      unfold evaluate; rw [hk]; simp
    have hmax : max |(0 : ℚ)| epsilon = epsilon := by
      simp [le_of_lt heps]
    refine ⟨?_, fun _ => by rw [he]⟩
    rw [he, hmax]
    simp only [decide_eq_true_eq]
    rw [div_le_iff₀ heps]
  · have he : evaluate epsilon rule left right =
        ⟨decide (|left - right| / max |left| epsilon ≤ rule.threshold),
          |left - right| / max |left| epsilon⟩ := by
      unfold evaluate; rw [hk]; simp [h0]
    exact ⟨by rw [he]; simp, fun hc => absurd hc h0⟩


theorem withIds_map_shape (es : List RecException) :
    (withIds es).map excShape = es.map excShape := by
  unfold withIds
  rw [List.map_map]
  have h1 : (excShape ∘ fun p : Nat × RecException => { p.2 with id := p.1 }) =
      excShape ∘ Prod.snd := by
    funext p; rfl
  rw [h1, ← List.map_map, List.enum_map_snd]

theorem mem_withIds_shape {es : List RecException} {e : RecException}
    (h : e ∈ es) : ∃ e2 ∈ withIds es, excShape e2 = excShape e := by
  have hm : excShape e ∈ (withIds es).map excShape := by
    rw [withIds_map_shape]
    exact List.mem_map_of_mem excShape h
  obtain ⟨e2, h2, he⟩ := List.mem_map.mp hm
  exact ⟨e2, h2, he⟩


/-- C4: every Matched-but-outside-tolerance result of a run is classified as
a FIELD_MISMATCH exception over exactly its pair of records, with severity
derived from the worst violating delta/threshold ratio r: LOW for r < 2,
MEDIUM for 2 ≤ r ≤ 5, HIGH for r > 5. -/
theorem matched_outside_tolerance_severity
    (cfg : MatchConfig) (lefts rights : List TradeRecord)
    (l r : TradeRecord) (ds : List Diff)
    (hmem : MatchResult.Matched l r false ds ∈ runMatcher cfg lefts rights) :
    ∃ e ∈ runExceptions cfg lefts rights,
      e.kind = ExKind.FIELD_MISMATCH ∧ e.sourceRecords = [l, r] ∧
      e.severity = severityOfNorm (worstNorm ds) ∧
      (worstNorm ds < 2 → e.severity = Severity.LOW) ∧
      (2 ≤ worstNorm ds ∧ worstNorm ds ≤ 5 → e.severity = Severity.MEDIUM) ∧
      (5 < worstNorm ds → e.severity = Severity.HIGH) := by
  have hpre : (⟨0, .FIELD_MISMATCH, severityOfNorm (worstNorm ds), false, [l, r], ds⟩ :
      RecException) ∈ exceptionsPre cfg (runMatcher cfg lefts rights) :=
    List.mem_filterMap.mpr ⟨_, hmem, rfl⟩
  obtain ⟨e2, h2, hs⟩ := mem_withIds_shape hpre
  simp only [excShape, Prod.mk.injEq] at hs
  obtain ⟨hk, hsev, -, hsrc, -⟩ := hs
  refine ⟨e2, h2, hk, hsrc, hsev, ?_, ?_, ?_⟩
  · intro h; rw [hsev]; simp [severityOfNorm, h]
  · intro h; rw [hsev]
    simp [severityOfNorm, not_lt.mpr h.1, h.2]
  · intro h; rw [hsev]
    have h2 : ¬ worstNorm ds < 2 :=
      not_lt.mpr (le_of_lt (lt_trans (by norm_num : (2 : ℚ) < 5) h))
    simp [severityOfNorm, h2, not_le.mpr h]

/-- Witness for C4: the worked scenario price 10.00 vs 10.20 under ABS_DELTA
tolerance 0.10 — the ratio is exactly 2 and the severity is MEDIUM. -/
theorem matched_outside_tolerance_severity_witness :
    (∃ e ∈ runExceptions cfgEx [recT1L] [recT1R],
      e.kind = ExKind.FIELD_MISMATCH ∧ e.sourceRecords = [recT1L, recT1R] ∧
      e.severity = severityOfNorm (worstNorm [⟨"price", 1/5, 1/10, false⟩]) ∧
      (worstNorm [⟨"price", 1/5, 1/10, false⟩] < 2 → e.severity = Severity.LOW) ∧
      (2 ≤ worstNorm [⟨"price", 1/5, 1/10, false⟩] ∧
        worstNorm [⟨"price", 1/5, 1/10, false⟩] ≤ 5 → e.severity = Severity.MEDIUM) ∧
      (5 < worstNorm [⟨"price", 1/5, 1/10, false⟩] → e.severity = Severity.HIGH)) ∧
    severityOfNorm (worstNorm [⟨"price", 1/5, 1/10, false⟩]) = Severity.MEDIUM :=
  ⟨matched_outside_tolerance_severity cfgEx [recT1L] [recT1R] recT1L recT1R
      [⟨"price", 1/5, 1/10, false⟩] (by decide),
    by decide⟩

/-- C5: when the probe finds two or more candidates for one left record the
Matcher emits the ambiguous outcome instead of silently picking one, and the
Break Classifier turns it into a FIELD_MISMATCH exception carrying the
reserved ambiguous marker, severity forced to HIGH, covering the left record
and every candidate. -/
theorem ambiguous_never_silent (cfg : MatchConfig) (l : TradeRecord)
    (rights cs : List TradeRecord)
    (hp : probe cfg.matchKeys l rights = cs) (hlen : 2 ≤ cs.length) :
    (matchStep cfg l rights).1 = MatchResult.Ambiguous l cs ∧
    ∃ e, classifyResult cfg (MatchResult.Ambiguous l cs) = some e ∧
      e.kind = ExKind.FIELD_MISMATCH ∧ e.ambiguous = true ∧
      e.severity = Severity.HIGH ∧ e.sourceRecords = l :: cs ∧
      ∀ c ∈ cs, c ∈ e.sourceRecords := by
  match cs, hlen with
  | c1 :: c2 :: rest, _ =>
    constructor
    · unfold matchStep
      rw [hp]
    · exact ⟨_, rfl, rfl, rfl, rfl, rfl, fun c hc => List.mem_cons_of_mem l hc⟩

/-- Witness for C5: one left record, two duplicate right-side candidates. -/
theorem ambiguous_never_silent_witness :
    (matchStep cfgEx recT1L [recT1R, ⟨"BROKER", "R2", [("trade_id", Value.str "T1")]⟩]).1 =
      MatchResult.Ambiguous recT1L
        [recT1R, ⟨"BROKER", "R2", [("trade_id", Value.str "T1")]⟩] ∧
    ∃ e, classifyResult cfgEx (MatchResult.Ambiguous recT1L
        [recT1R, ⟨"BROKER", "R2", [("trade_id", Value.str "T1")]⟩]) = some e ∧
      e.kind = ExKind.FIELD_MISMATCH ∧ e.ambiguous = true ∧
      e.severity = Severity.HIGH ∧
      e.sourceRecords = recT1L :: [recT1R, ⟨"BROKER", "R2", [("trade_id", Value.str "T1")]⟩] ∧
      ∀ c ∈ [recT1R, ⟨"BROKER", "R2", [("trade_id", Value.str "T1")]⟩],
        c ∈ e.sourceRecords :=
  ambiguous_never_silent cfgEx recT1L
    [recT1R, ⟨"BROKER", "R2", [("trade_id", Value.str "T1")]⟩]
    [recT1R, ⟨"BROKER", "R2", [("trade_id", Value.str "T1")]⟩]
    (by decide) (by decide)

theorem addToGroups_flatten_perm (sim : RecException → RecException → Bool)
    (e : RecException) (gs : List (List RecException)) :
    List.Perm (addToGroups sim e gs).flatten (e :: gs.flatten) := by
  unfold addToGroups
  simp only [List.partition_eq_filter_filter, List.flatten_cons]
  have h1 : List.Perm (List.filter (fun g => g.any (fun x => sim e x)) gs ++
      List.filter (fun g => !g.any (fun x => sim e x)) gs) gs :=
    List.filter_append_perm _ gs
  have h2 : List.Perm ((List.filter (fun g => g.any (fun x => sim e x)) gs).flatten ++
      (List.filter (fun g => !g.any (fun x => sim e x)) gs).flatten) gs.flatten := by
    rw [← List.flatten_append]
    exact h1.flatten
  exact (List.perm_cons e).mpr h2

theorem foldl_addToGroups_flatten_perm (sim : RecException → RecException → Bool) :
    ∀ (es : List RecException) (gs : List (List RecException)),
    List.Perm (es.foldl (fun acc x => addToGroups sim x acc) gs).flatten (gs.flatten ++ es) := by
  intro es
  induction es with
  | nil => intro gs; simp
  | cons e es ih =>
      intro gs
      simp only [List.foldl_cons]
      refine (ih (addToGroups sim e gs)).trans ?_
      refine ((addToGroups_flatten_perm sim e gs).append_right es).trans ?_
      exact List.perm_middle.symm

theorem components_flatten_perm (sim : RecException → RecException → Bool)
    (es : List RecException) : List.Perm (components sim es).flatten es := by
  simpa [components] using foldl_addToGroups_flatten_perm sim es []

/-- C6: every Cluster produced by the Clustering Engine has at least
`minClusterSize` members; and (given distinct exception ids) every member of
a candidate group smaller than `minClusterSize` is left unclustered, with a
null cluster id, rather than forced into a degenerate cluster. -/
theorem cluster_min_size (cfg : MatchConfig) (es : List RecException) :
    (∀ c ∈ cluster cfg es, cfg.minClusterSize ≤ c.members.length) ∧
    ((es.map (fun e => e.id)).Nodup →
      ∀ g ∈ components (simExc cfg.fieldsUniverse cfg.clusterSimilarityThreshold)
          (sortById es),
        g.length < cfg.minClusterSize → ∀ e ∈ g, clusterIdOf cfg es e = none) := by
  constructor
  · intro c hc
    simp only [cluster] at hc
    obtain ⟨p, hp, rfl⟩ := List.mem_map.mp hc
    have hsnd : p.2 ∈ (components (simExc cfg.fieldsUniverse
        cfg.clusterSimilarityThreshold) (sortById es)).filter
        (fun g => decide (cfg.minClusterSize ≤ g.length)) := by
      have := List.mem_map_of_mem Prod.snd hp
      rwa [List.enum_map_snd] at this
    have := (List.mem_filter.mp hsnd).2
    simp only [decide_eq_true_eq] at this
    simpa [List.length_map] using this
  · intro hnodup g hg hsmall e he
    set sim := simExc cfg.fieldsUniverse cfg.clusterSimilarityThreshold with hsim
    set comps := components sim (sortById es) with hcomps
    have hperm : List.Perm comps.flatten es :=
      (components_flatten_perm sim (sortById es)).trans
        (List.perm_insertionSort idLE es)
    have hesnodup : es.Nodup := hnodup.of_map
    have hflatnodup : comps.flatten.Nodup := (hperm.nodup_iff).mpr hesnodup
    unfold clusterIdOf
    rw [List.find?_eq_none.mpr, Option.map_none']
    intro c hc
    simp only [cluster] at hc
    obtain ⟨p, hp, rfl⟩ := List.mem_map.mp hc
    have hsnd : p.2 ∈ comps.filter (fun g => decide (cfg.minClusterSize ≤ g.length)) := by
      have := List.mem_map_of_mem Prod.snd hp
      rwa [List.enum_map_snd] at this
    obtain ⟨hg2, hlen2⟩ := List.mem_filter.mp hsnd
    simp only [decide_eq_true_eq] at hlen2
    intro hcontains
    have hmem : e.id ∈ p.2.map (fun x => x.id) := by
      have := List.elem_iff.mp hcontains
      simpa using this
    obtain ⟨e2, he2, hid⟩ := List.mem_map.mp hmem
    have heq : e2 = e := by
      have h1 : e2 ∈ es := hperm.mem_iff.mp (List.mem_flatten.mpr ⟨p.2, hg2, he2⟩)
      have h2 : e ∈ es := hperm.mem_iff.mp (List.mem_flatten.mpr ⟨g, hg, he⟩)
      exact List.inj_on_of_nodup_map hnodup h1 h2 hid
    subst heq
    have hne : g ≠ p.2 := by
      intro h
      rw [h] at hsmall
      exact absurd hlen2 (not_le.mpr hsmall)
    obtain ⟨s, t, hst⟩ := List.append_of_mem hg
    have hp2 : p.2 ∈ s ∨ p.2 ∈ t := by
      rcases List.mem_append.mp (hst ▸ hg2) with h | h
      · exact Or.inl h
      · rcases List.mem_cons.mp h with h | h
        · exact absurd h.symm hne
        · exact Or.inr h
    have hcount : comps.flatten.count e2 ≤ 1 :=
      List.nodup_iff_count_le_one.mp hflatnodup e2
    have hsplit : comps.flatten = s.flatten ++ (g ++ t.flatten) := by
      rw [hst]; simp
    have h1 : 1 ≤ g.count e2 := List.count_pos_iff.mpr he
    have h2 : 1 ≤ s.flatten.count e2 + t.flatten.count e2 := by
      rcases hp2 with h | h
      · have := List.count_pos_iff.mpr (List.mem_flatten.mpr ⟨p.2, h, he2⟩)
        omega
      · have := List.count_pos_iff.mpr (List.mem_flatten.mpr ⟨p.2, h, he2⟩)
        omega
    rw [hsplit] at hcount
    simp only [List.count_append] at hcount
    omega


/-- Witness for C6: a single exception forms a candidate group of size one,
below the configured minimum of two, and keeps a null cluster id. -/
theorem cluster_min_size_witness : clusterIdOf cfgEx [excW] excW = none :=
  (cluster_min_size cfgEx [excW]).2 (by decide) [excW] (by decide) (by decide)
    excW (by decide)

/-- C8: in an N-way run, any two records (possibly from two different
non-authoritative sources) that show the same trade which is absent from the
authority are covered by one and the same exception: exactly one exception
of the run mentions either of them, it mentions both, its kind is
MISSING_AUTHORITATIVE — distinct from MISSING_LEFT and MISSING_RIGHT — and
its severity is HIGH, whether or not the sources agree on the trade's
fields. Taking the two records equal gives the per-record statement: each
missing record is raised in exactly one exception. -/
theorem missing_authoritative_unique (cfg : MatchConfig) (auth : List TradeRecord)
    (others : List (List TradeRecord)) (r1 r2 : TradeRecord)
    (hr1 : r1 ∈ others.flatten)
    (habs1 : (probe cfg.matchKeys r1 auth).isEmpty = true)
    (hr2 : r2 ∈ others.flatten)
    (habs2 : (probe cfg.matchKeys r2 auth).isEmpty = true)
    (hsame : keyOf cfg r1 = keyOf cfg r2) :
    ((nwayMissingAuth cfg auth others).countP
      (fun e => decide (r1 ∈ e.sourceRecords) || decide (r2 ∈ e.sourceRecords)) = 1) ∧
    (∃ e ∈ nwayMissingAuth cfg auth others,
      r1 ∈ e.sourceRecords ∧ r2 ∈ e.sourceRecords) ∧
    ∀ e ∈ nwayMissingAuth cfg auth others,
      r1 ∈ e.sourceRecords ∨ r2 ∈ e.sourceRecords →
      e.kind = ExKind.MISSING_AUTHORITATIVE ∧ e.severity = Severity.HIGH ∧
      e.kind ≠ ExKind.MISSING_LEFT ∧ e.kind ≠ ExKind.MISSING_RIGHT := by
  have hrm1 : r1 ∈ others.flatten.filter
      (fun x => (probe cfg.matchKeys x auth).isEmpty) :=
    List.mem_filter.mpr ⟨hr1, habs1⟩
  have hrm2 : r2 ∈ others.flatten.filter
      (fun x => (probe cfg.matchKeys x auth).isEmpty) :=
    List.mem_filter.mpr ⟨hr2, habs2⟩
  refine ⟨?_, ?_, ?_⟩
  · unfold nwayMissingAuth
    rw [List.countP_map]
    have hcongr : ∀ k ∈ ((others.flatten.filter
        (fun x => (probe cfg.matchKeys x auth).isEmpty)).map
          (fun x => keyOf cfg x)).dedup,
        ((fun e : RecException => decide (r1 ∈ e.sourceRecords) ||
            decide (r2 ∈ e.sourceRecords)) ∘
          (fun k => (⟨0, .MISSING_AUTHORITATIVE, .HIGH, false,
            (others.flatten.filter (fun x => (probe cfg.matchKeys x auth).isEmpty)).filter
              (fun x => decide (keyOf cfg x = k)), []⟩ : RecException))) k =
          decide (k = keyOf cfg r1) := by
      intro k _
      simp only [Function.comp_apply]
      by_cases hk : keyOf cfg r1 = k
      · have h1 : r1 ∈ List.filter (fun x => decide (keyOf cfg x = k))
            (others.flatten.filter (fun x => (probe cfg.matchKeys x auth).isEmpty)) :=
          List.mem_filter.mpr ⟨hrm1, decide_eq_true hk⟩
        rw [decide_eq_true h1, Bool.true_or]
        exact (decide_eq_true hk.symm).symm
      · have h1 : r1 ∉ List.filter (fun x => decide (keyOf cfg x = k))
            (others.flatten.filter (fun x => (probe cfg.matchKeys x auth).isEmpty)) := by
          intro hmem
          exact hk (decide_eq_true_eq.mp (List.mem_filter.mp hmem).2)
        have h2 : r2 ∉ List.filter (fun x => decide (keyOf cfg x = k))
            (others.flatten.filter (fun x => (probe cfg.matchKeys x auth).isEmpty)) := by
          intro hmem
          exact hk (hsame.trans (decide_eq_true_eq.mp (List.mem_filter.mp hmem).2))
        rw [decide_eq_false h1, decide_eq_false h2, Bool.false_or]
        exact (decide_eq_false (fun h => hk h.symm)).symm
    rw [List.countP_congr (fun x hx => by rw [hcongr x hx])]
    have hkey : keyOf cfg r1 ∈ ((others.flatten.filter
        (fun x => (probe cfg.matchKeys x auth).isEmpty)).map
          (fun x => keyOf cfg x)).dedup :=
      List.mem_dedup.mpr (List.mem_map_of_mem (fun x => keyOf cfg x) hrm1)
    have hone := List.count_eq_one_of_mem (List.nodup_dedup _) hkey
    exact hone
  · refine ⟨(⟨0, .MISSING_AUTHORITATIVE, .HIGH, false,
      (others.flatten.filter (fun x => (probe cfg.matchKeys x auth).isEmpty)).filter
        (fun x => decide (keyOf cfg x = keyOf cfg r1)), []⟩ : RecException),
      ?_, ?_, ?_⟩
    · unfold nwayMissingAuth
      exact List.mem_map_of_mem _
        (List.mem_dedup.mpr (List.mem_map_of_mem (fun x => keyOf cfg x) hrm1))
    · exact List.mem_filter.mpr ⟨hrm1, decide_eq_true rfl⟩
    · exact List.mem_filter.mpr ⟨hrm2, decide_eq_true hsame.symm⟩
  · intro e he _
    unfold nwayMissingAuth at he
    obtain ⟨k, -, rfl⟩ := List.mem_map.mp he
    exact ⟨rfl, rfl, by simp, by simp⟩

/-- Witness for C8: Broker and Internal both show trade T1 with disagreeing
prices and the authority has no records — exactly one exception mentions the
two records, jointly. -/
theorem missing_authoritative_unique_witness :
    (nwayMissingAuth cfgEx [] [[brokerT1], [internalT1]]).countP
      (fun e => decide (brokerT1 ∈ e.sourceRecords) ||
        decide (internalT1 ∈ e.sourceRecords)) = 1 :=
  (missing_authoritative_unique cfgEx [] [[brokerT1], [internalT1]]
    brokerT1 internalT1 (by decide) (by decide) (by decide) (by decide)
    (by decide)).1

theorem countP_or_le (p q : MatchResult → Bool) (l : List MatchResult) :
    l.countP (fun x => p x || q x) ≤ l.countP p + l.countP q := by
  induction l with
  | nil => simp
  | cons a l ih =>
      simp only [List.countP_cons]
      cases hp : p a <;> cases hq : q a <;> simp [hp, hq] <;> omega

theorem probe_mem_of_mem {keys : List MatchKey} {l : TradeRecord}
    {rights : List TradeRecord} {x : TradeRecord}
    (h : x ∈ probe keys l rights) : x ∈ rights := by
  induction keys with
  | nil => cases h
  | cons k ks ih =>
      have heq : probe (k :: ks) l rights =
          if (rights.filter (fun r => keyMatches k l r)).isEmpty then probe ks l rights
          else rights.filter (fun r => keyMatches k l r) := rfl
      rw [heq] at h
      by_cases he : (rights.filter (fun r => keyMatches k l r)).isEmpty
      · rw [if_pos he] at h; exact ih h
      · rw [if_neg he] at h
        exact (List.mem_filter.mp h).1

theorem countP_eq_count (t : TradeRecord) (l : List TradeRecord) :
    l.countP (fun x => decide (t = x)) = l.count t := by
  refine List.countP_congr ?_
  intro x _
  simp only [decide_eq_true_eq, beq_iff_eq]
  exact eq_comm

theorem matchStep_fst_occursLeft (cfg : MatchConfig) (l : TradeRecord)
    (rights : List TradeRecord) (t : TradeRecord) :
    occursLeft t (matchStep cfg l rights).1 = decide (t = l) := by
  unfold matchStep
  rcases hp : probe cfg.matchKeys l rights with _ | ⟨c, _ | ⟨c2, cs⟩⟩ <;>
    simp [occursLeft]

theorem matchStep_right_count (cfg : MatchConfig) (l : TradeRecord)
    (rights : List TradeRecord) (t : TradeRecord) :
    (if occursRight t (matchStep cfg l rights).1 = true then 1 else 0) +
      (matchStep cfg l rights).2.count t ≤ rights.count t := by
  unfold matchStep
  rcases hp : probe cfg.matchKeys l rights with _ | ⟨c, _ | ⟨c2, cs⟩⟩
  · simp [occursRight]
  · simp only [occursRight]
    by_cases ht : t = c
    · subst ht
      have hmem : t ∈ rights := probe_mem_of_mem (hp ▸ List.mem_singleton.mpr rfl)
      have hcnt : 1 ≤ rights.count t := List.count_pos_iff.mpr hmem
      have hzero : (rights.filter (fun r => decide (r ≠ t))).count t = 0 := by
        refine List.count_eq_zero.mpr ?_
        intro hmem2
        have h2 := (List.mem_filter.mp hmem2).2
        simp at h2
      rw [hzero, if_pos (decide_eq_true rfl)]
      omega
    · have hkeep : (rights.filter (fun r => decide (r ≠ c))).count t =
          rights.count t := List.count_filter (decide_eq_true ht)
      rw [hkeep, if_neg (by simp [ht])]
      omega
  · simp only [occursRight]
    by_cases ht : t ∈ c :: c2 :: cs
    · have hmem : t ∈ rights := probe_mem_of_mem (hp ▸ ht)
      have hcnt : 1 ≤ rights.count t := List.count_pos_iff.mpr hmem
      have hzero : (rights.filter (fun r => decide (r ∉ c :: c2 :: cs))).count t = 0 := by
        refine List.count_eq_zero.mpr ?_
        intro hmem2
        have h2 := (List.mem_filter.mp hmem2).2
        simp at h2
        exact absurd ht (by simpa using h2)
      rw [hzero, if_pos (decide_eq_true ht)]
      omega
    · have hkeep : (rights.filter (fun r => decide (r ∉ c :: c2 :: cs))).count t =
          rights.count t := List.count_filter (decide_eq_true ht)
      rw [hkeep, if_neg (by simp [ht])]
      omega

theorem runMatcherAux_left_count (cfg : MatchConfig) (t : TradeRecord) :
    ∀ (lefts rights : List TradeRecord),
    (runMatcherAux cfg lefts rights).1.countP (occursLeft t) ≤
      lefts.countP (fun x => decide (t = x)) := by
  intro lefts
  induction lefts with
  | nil => intro rights; simp [runMatcherAux]
  | cons l ls ih =>
      intro rights
      simp only [runMatcherAux, List.countP_cons]
      have h1 := matchStep_fst_occursLeft cfg l rights t
      have h2 := ih (matchStep cfg l rights).2
      rw [h1]
      omega

theorem runMatcherAux_right_count (cfg : MatchConfig) (t : TradeRecord) :
    ∀ (lefts rights : List TradeRecord),
    (runMatcherAux cfg lefts rights).1.countP (occursRight t) +
      (runMatcherAux cfg lefts rights).2.count t ≤ rights.count t := by
  intro lefts
  induction lefts with
  | nil => intro rights; simp [runMatcherAux]
  | cons l ls ih =>
      intro rights
      simp only [runMatcherAux, List.countP_cons]
      have hstep := matchStep_right_count cfg l rights t
      have hih := ih (matchStep cfg l rights).2
      by_cases hocc : occursRight t (matchStep cfg l rights).1 = true <;>
        simp only [hocc, if_pos, if_neg] at hstep ⊢ <;> omega

/-- C2: no double counting — given duplicate-free, disjoint input sides,
every TradeRecord occurs in at most one MatchResult of the two-way Matcher:
never in two Matched pairs, and never both in a Matched pair and as an
UnmatchedLeft or UnmatchedRight record. -/
theorem no_double_counting (cfg : MatchConfig) (lefts rights : List TradeRecord)
    (hl : lefts.Nodup) (hr : rights.Nodup)
    (hdisj : ∀ x ∈ lefts, x ∉ rights) (t : TradeRecord) :
    (runMatcher cfg lefts rights).countP (occursIn t) ≤ 1 := by
  unfold runMatcher
  rw [List.countP_append]
  have htail : ((runMatcherAux cfg lefts rights).2.map MatchResult.UnmatchedRight).countP
      (occursIn t) = (runMatcherAux cfg lefts rights).2.countP (fun x => decide (t = x)) := by
    rw [List.countP_map]
    refine List.countP_congr ?_
    intro x _
    simp [occursIn, occursLeft, occursRight]
  have hor : (runMatcherAux cfg lefts rights).1.countP (occursIn t) ≤
      (runMatcherAux cfg lefts rights).1.countP (occursLeft t) +
      (runMatcherAux cfg lefts rights).1.countP (occursRight t) := by
    refine le_trans (le_of_eq (List.countP_congr ?_)) (countP_or_le _ _ _)
    intro x _
    simp [occursIn]
  have hleft := runMatcherAux_left_count cfg t lefts rights
  have hright := runMatcherAux_right_count cfg t lefts rights
  have hcl : lefts.count t ≤ 1 := List.nodup_iff_count_le_one.mp hl t
  have hcr : rights.count t ≤ 1 := List.nodup_iff_count_le_one.mp hr t
  have hdt : lefts.count t = 0 ∨ rights.count t = 0 := by
    by_cases hmem : t ∈ lefts
    · exact Or.inr (List.count_eq_zero.mpr (hdisj t hmem))
    · exact Or.inl (List.count_eq_zero.mpr hmem)
  rw [htail, countP_eq_count]
  rw [countP_eq_count] at hleft
  omega

/-- Witness for C2: the worked one-pair scenario, checked for the left
record. -/
theorem no_double_counting_witness :
    (runMatcher cfgEx [recT1L] [recT1R]).countP (occursIn recT1L) ≤ 1 :=
  no_double_counting cfgEx [recT1L] [recT1R] (by decide) (by decide)
    (by decide) recT1L

/-- Witness for C7: epsilon 1/1000, threshold 1/5, values 10 and 12. -/
theorem pct_delta_within_iff_witness :
    ((evaluate (1/1000) ⟨"qty", ToleranceKind.PCT_DELTA, 1/5⟩ 10 12).withinTolerance = true ↔
      |(10 : ℚ) - 12| / max |(10 : ℚ)| (1/1000) ≤ 1/5) ∧
    ((10 : ℚ) = 0 →
      (evaluate (1/1000) ⟨"qty", ToleranceKind.PCT_DELTA, 1/5⟩ 10 12).withinTolerance =
        decide (|(10 : ℚ) - 12| ≤ 1/5 * (1/1000))) :=
  pct_delta_within_iff (1/1000) ⟨"qty", ToleranceKind.PCT_DELTA, 1/5⟩ rfl (by norm_num) 10 12

theorem sortById_sorted (es : List RecException) : List.Sorted idLE (sortById es) :=
  List.sorted_insertionSort idLE es

theorem sortById_perm (es : List RecException) : List.Perm (sortById es) es :=
  List.perm_insertionSort idLE es

theorem sortById_strict {es : List RecException}
    (hnd : (es.map (fun e => e.id)).Nodup) :
    List.Pairwise (fun a b : RecException => a.id < b.id ∨ a = b) (sortById es) := by
  have hs : List.Pairwise idLE (sortById es) := sortById_sorted es
  have hnd2 : ((sortById es).map (fun e => e.id)).Nodup :=
    (((sortById_perm es).map (fun e => e.id)).nodup_iff).mpr hnd
  have hne : List.Pairwise (fun a b : RecException => a.id ≠ b.id) (sortById es) :=
    List.pairwise_map.mp hnd2
  exact (hs.and hne).imp (fun h => Or.inl (lt_of_le_of_ne h.1 h.2))

theorem sortById_eq_of_perm {es1 es2 : List RecException}
    (hp : List.Perm es1 es2) (hn : (es1.map (fun e => e.id)).Nodup) :
    sortById es1 = sortById es2 := by
  have hps : List.Perm (sortById es1) (sortById es2) :=
    (sortById_perm es1).trans (hp.trans (sortById_perm es2).symm)
  have hn2 : (es2.map (fun e => e.id)).Nodup := ((hp.map (fun e => e.id)).nodup_iff).mp hn
  letI : IsAntisymm RecException (fun a b => a.id < b.id ∨ a = b) := ⟨by
    intro a b hab hba
    rcases hab with h | h
    · rcases hba with h2 | h2
      · omega
      · exact h2.symm
    · exact h⟩
  exact List.eq_of_perm_of_sorted hps (sortById_strict hn) (sortById_strict hn2)

/-- C3: the full pipeline — Matcher, Break Classifier, Clustering Engine —
is a pure function, so two runs on identical inputs and configuration give
bit-identical MatchResults, Exceptions and Clusters; and the clustering
output is a function of the exception set alone: any reordering of the
exception list with distinct ids produces identical Clusters, since ties are
broken by exception id, not insertion order. -/
theorem pipeline_idempotent_deterministic (cfg : MatchConfig)
    (lefts rights : List TradeRecord) (es1 es2 : List RecException) :
    fullRun cfg lefts rights = fullRun cfg lefts rights ∧
    (List.Perm es1 es2 → (es1.map (fun e => e.id)).Nodup →
      cluster cfg es1 = cluster cfg es2) :=
  ⟨rfl, fun hp hn => by unfold cluster; rw [sortById_eq_of_perm hp hn]⟩

/-- Witness for C3: two insertion orders of the same two exceptions cluster
identically. -/
theorem pipeline_idempotent_deterministic_witness :
    cluster cfgEx [excW, excW2] = cluster cfgEx [excW2, excW] :=
  (pipeline_idempotent_deterministic cfgEx [] [] [excW, excW2] [excW2, excW]).2
    (by decide) (by decide)

/-- C10: downloadCSV of an empty array produces nothing; of a non-empty
array it produces the comma-joined keys of the first element as the header
line followed by one line per row containing the values of exactly those
keys in that order; a string value containing a comma is wrapped in double
quotes, every other value — including strings with embedded double quotes or
newlines — is emitted verbatim, and an absent key renders as the empty
string. -/
theorem downloadCSV_shape :
    (csvContent [] = none) ∧
    (∀ (r0 : CsvRow) (rest : List CsvRow),
      csvContent (r0 :: rest) =
        some (String.intercalate "\n"
          (String.intercalate "," (r0.map (fun p => p.1)) ::
            (r0 :: rest).map (fun row => renderLine (r0.map (fun p => p.1)) row)))) ∧
    (∀ (row : CsvRow) (k s : String),
      csvLookup row k = some (.str s) → s.toList.contains ',' = true →
      renderCell row k = "\"" ++ s ++ "\"") ∧
    (∀ (row : CsvRow) (k s : String),
      csvLookup row k = some (.str s) → s.toList.contains ',' = false →
      renderCell row k = s) ∧
    (∀ (row : CsvRow) (k v : String),
      csvLookup row k = some (.raw v) → renderCell row k = v) ∧
    (∀ (row : CsvRow) (k : String),
      csvLookup row k = none → renderCell row k = "") := by
  refine ⟨rfl, fun r0 rest => rfl, ?_, ?_, ?_, ?_⟩
  · intro row k s hs hc
    unfold renderCell
    rw [hs]
    show (if s.toList.contains ',' = true then "\"" ++ s ++ "\"" else s) = "\"" ++ s ++ "\""
    rw [if_pos hc]
  · intro row k s hs hc
    unfold renderCell
    rw [hs]
    show (if s.toList.contains ',' = true then "\"" ++ s ++ "\"" else s) = s
    rw [if_neg (by rw [hc]; exact Bool.false_ne_true)]
  · intro row k v hv
    unfold renderCell
    rw [hv]
  · intro row k hn
    unfold renderCell
    rw [hn]

/-- C9 counterexample: the claimed swap symmetry fails on the Matcher at
three concrete inputs, one for each condition of the amended claim. (1)
Duplicate key values (single key, no PCT_DELTA): two left records sharing
trade_id T1 against one right record give a Matched pair plus MISSING_LEFT
forward, but one ambiguous FIELD_MISMATCH swapped. (2) Two match keys
(duplicate-free key values on each side, no tolerance rules): key priority
pairs the left record with a different right record in each direction, so a
different record goes missing on each side. (3) A PCT_DELTA rule (single
key, duplicate-free): the percentage base is the left value, so price 10 vs
12 at threshold 18% is a break forward but within tolerance swapped. -/
theorem matcher_symmetry_counterexample :
    ((exceptionsPre cfgEx (runMatcher cfgEx [recA1, recA2] [recB1])).map
        (fun e => e.kind) = [ExKind.MISSING_LEFT] ∧
      (exceptionsPre cfgEx (runMatcher cfgEx [recB1] [recA1, recA2])).map
        (fun e => e.kind) = [ExKind.FIELD_MISMATCH] ∧
      ¬ List.Perm (exceptionsPre cfgEx (runMatcher cfgEx [recB1] [recA1, recA2]))
        ((exceptionsPre cfgEx (runMatcher cfgEx [recA1, recA2] [recB1])).map
          relabelSwap)) ∧
    ((exceptionsPre cfg9b (runMatcher cfg9b [recKL] [recK1, recK2])).map
        (fun e => (e.kind, e.sourceRecords)) =
          [(ExKind.MISSING_RIGHT, [recK1])] ∧
      (exceptionsPre cfg9b (runMatcher cfg9b [recK1, recK2] [recKL])).map
        (fun e => (e.kind, e.sourceRecords)) =
          [(ExKind.MISSING_LEFT, [recK2])] ∧
      ¬ List.Perm (exceptionsPre cfg9b (runMatcher cfg9b [recK1, recK2] [recKL]))
        ((exceptionsPre cfg9b (runMatcher cfg9b [recKL] [recK1, recK2])).map
          relabelSwap)) ∧
    ((exceptionsPre cfg9c (runMatcher cfg9c [recP1] [recP2])).map
        (fun e => e.kind) = [ExKind.FIELD_MISMATCH] ∧
      exceptionsPre cfg9c (runMatcher cfg9c [recP2] [recP1]) = [] ∧
      ¬ List.Perm (exceptionsPre cfg9c (runMatcher cfg9c [recP2] [recP1]))
        ((exceptionsPre cfg9c (runMatcher cfg9c [recP1] [recP2])).map
          relabelSwap)) :=
  ⟨⟨by decide, by decide, by decide⟩, ⟨by decide, by decide, by decide⟩,
    ⟨by decide, by decide, by decide⟩⟩

theorem keyMatches_some (k : MatchKey) (l r : TradeRecord)
    (h : keyMatches k l r = true) :
    ∃ v, keyVals k l = some v ∧ keyVals k r = some v := by
  unfold keyMatches at h
  rcases hkl : keyVals k l with _ | vl <;> rw [hkl] at h
  · simp at h
  · rcases hkr : keyVals k r with _ | vr <;> rw [hkr] at h
    · simp at h
    · exact ⟨vl, rfl, by rw [decide_eq_true_eq.mp h]⟩

theorem keyMatches_of_some (k : MatchKey) (l r : TradeRecord) (v : List Value)
    (hl : keyVals k l = some v) (hr : keyVals k r = some v) :
    keyMatches k l r = true := by
  unfold keyMatches
  rw [hl, hr]
  exact decide_eq_true rfl

theorem keyMatches_symm (k : MatchKey) (l r : TradeRecord) :
    keyMatches k l r = keyMatches k r l := by
  unfold keyMatches
  rcases keyVals k l with _ | vl <;> rcases keyVals k r with _ | vr <;> simp
  exact eq_comm

theorem evaluate_symm (epsilon : ℚ) (rule : ToleranceRule)
    (hk : rule.kind ≠ ToleranceKind.PCT_DELTA) (a b : ℚ) :
    evaluate epsilon rule a b = evaluate epsilon rule b a := by
  rcases rule with ⟨f, kd, t⟩
  cases kd
  · unfold evaluate
    simp only
    rw [abs_sub_comm a b, decide_eq_decide.mpr (eq_comm : a = b ↔ b = a)]
  · unfold evaluate
    simp only
    rw [abs_sub_comm a b]
  · exact absurd rfl hk
  · unfold evaluate
    simp only
    rw [abs_sub_comm a b]

theorem fieldDiff_symm (epsilon : ℚ) (rule : ToleranceRule)
    (hk : rule.kind ≠ ToleranceKind.PCT_DELTA) (l r : TradeRecord) :
    fieldDiff epsilon rule l r = fieldDiff epsilon rule r l := by
  unfold fieldDiff
  rcases lookupField l rule.field with _ | v1 <;>
    rcases lookupField r rule.field with _ | v2
  · rfl
  · rcases v2 with b | sb <;> rfl
  · rcases v1 with a | sa <;> rfl
  · rcases v1 with a | sa <;> rcases v2 with b | sb <;> try rfl
    simp only [evaluate_symm epsilon rule hk]

theorem filterMap_congr_mem {α β : Type} {f g : α → Option β} :
    ∀ {l : List α}, (∀ x ∈ l, f x = g x) → l.filterMap f = l.filterMap g := by
  intro l
  induction l with
  | nil => intro _; rfl
  | cons a l ih =>
      intro h
      rw [List.filterMap_cons, List.filterMap_cons, h a (List.mem_cons_self a l),
        ih (fun x hx => h x (List.mem_cons_of_mem a hx))]

theorem compareFields_symm (cfg : MatchConfig)
    (hrules : ∀ ru ∈ cfg.toleranceRules, ru.kind ≠ ToleranceKind.PCT_DELTA)
    (l r : TradeRecord) : compareFields cfg l r = compareFields cfg r l :=
  filterMap_congr_mem (fun ru hru => fieldDiff_symm cfg.epsilon ru (hrules ru hru) l r)

theorem probe_single (k : MatchKey) (l : TradeRecord) (rights : List TradeRecord) :
    probe [k] l rights = rights.filter (fun r => keyMatches k l r) := by
  show (if (rights.filter (fun r => keyMatches k l r)).isEmpty then probe [] l rights
    else rights.filter (fun r => keyMatches k l r)) = _
  by_cases he : (rights.filter (fun r => keyMatches k l r)).isEmpty
  · rw [if_pos he]
    exact (List.isEmpty_iff.mp he).symm
  · rw [if_neg he]

theorem filter_key_all_eq (k : MatchKey) (l : TradeRecord)
    {rights : List TradeRecord}
    (huR : ∀ a ∈ rights, ∀ b ∈ rights, keyVals k a = keyVals k b →
      (keyVals k a).isSome → a = b) :
    ∀ a ∈ rights.filter (fun r => keyMatches k l r),
      ∀ b ∈ rights.filter (fun r => keyMatches k l r), a = b := by
  intro a ha b hb
  obtain ⟨ha1, ha2⟩ := List.mem_filter.mp ha
  obtain ⟨hb1, hb2⟩ := List.mem_filter.mp hb
  obtain ⟨v, hvl, hva⟩ := keyMatches_some k l a ha2
  obtain ⟨w, hwl, hwb⟩ := keyMatches_some k l b hb2
  have hw : w = v := Option.some.inj (hwl.symm.trans hvl)
  subst hw
  exact huR a ha1 b hb1 (by rw [hva, hwb]) (by rw [hva]; rfl)

theorem filter_key_len_le_one (k : MatchKey) (l : TradeRecord)
    {rights : List TradeRecord} (hnr : rights.Nodup)
    (huR : ∀ a ∈ rights, ∀ b ∈ rights, keyVals k a = keyVals k b →
      (keyVals k a).isSome → a = b) :
    (rights.filter (fun r => keyMatches k l r)).length ≤ 1 := by
  rcases hf : rights.filter (fun r => keyMatches k l r) with _ | ⟨a, _ | ⟨b, t⟩⟩
  · simp
  · simp
  · exfalso
    have hnf := hnr.filter (fun r => keyMatches k l r)
    rw [hf] at hnf
    have hab : a ≠ b := by
      simp only [List.nodup_cons, List.mem_cons, not_or] at hnf
      exact hnf.1.1
    have ha : a ∈ rights.filter (fun r => keyMatches k l r) := by
      rw [hf]; exact List.mem_cons_self a _
    have hb : b ∈ rights.filter (fun r => keyMatches k l r) := by
      rw [hf]; exact List.mem_cons_of_mem a (List.mem_cons_self b t)
    exact hab (filter_key_all_eq k l huR a ha b hb)

theorem filter_filter_ne {p : TradeRecord → Bool} {c : TradeRecord}
    (hpc : p c = false) (pool : List TradeRecord) :
    (pool.filter (fun r => decide (r ≠ c))).filter p = pool.filter p := by
  rw [List.filter_filter]
  refine List.filter_congr ?_
  intro r _
  by_cases hc : r = c
  · subst hc; rw [hpc]; simp
  · simp [hc]

theorem mateIn_none_of_filter_nil {k : MatchKey} {pool : List TradeRecord}
    {x : TradeRecord} (hf : pool.filter (fun y => keyMatches k x y) = []) :
    mateIn k pool x = none := by
  unfold mateIn
  rw [hf]

theorem mateIn_some_of_filter_cons {k : MatchKey} {pool : List TradeRecord}
    {x c : TradeRecord} {t : List TradeRecord}
    (hf : pool.filter (fun y => keyMatches k x y) = c :: t) :
    mateIn k pool x = some c := by
  unfold mateIn
  rw [hf]

theorem mateIn_congr_pools {k : MatchKey} {pool1 pool2 : List TradeRecord}
    {x : TradeRecord}
    (h : pool1.filter (fun y => keyMatches k x y) =
      pool2.filter (fun y => keyMatches k x y)) :
    mateIn k pool1 x = mateIn k pool2 x := by
  unfold mateIn
  rw [h]

theorem runMatcherAux_cons (cfg : MatchConfig) (l : TradeRecord)
    (ls rights : List TradeRecord) :
    runMatcherAux cfg (l :: ls) rights =
      ((matchStep cfg l rights).1 ::
          (runMatcherAux cfg ls (matchStep cfg l rights).2).1,
        (runMatcherAux cfg ls (matchStep cfg l rights).2).2) := rfl

theorem runMatcherAux_single_char (cfg : MatchConfig) (k : MatchKey)
    (hks : cfg.matchKeys = [k]) :
    ∀ (lefts rights : List TradeRecord), lefts.Nodup → rights.Nodup →
    (∀ a ∈ lefts, ∀ b ∈ lefts, keyVals k a = keyVals k b →
      (keyVals k a).isSome → a = b) →
    (∀ a ∈ rights, ∀ b ∈ rights, keyVals k a = keyVals k b →
      (keyVals k a).isSome → a = b) →
    runMatcherAux cfg lefts rights =
      (lefts.map (oneStep cfg k rights),
        rights.filter (fun r => !lefts.any (fun x => keyMatches k x r))) := by
  intro lefts
  induction lefts with
  | nil =>
      intro rights _ _ _ _
      simp [runMatcherAux]
  | cons l ls ih =>
      intro rights hnl hnr huL huR
      have hll : l ∉ ls := (List.nodup_cons.mp hnl).1
      have hnls : ls.Nodup := (List.nodup_cons.mp hnl).2
      have huLs : ∀ a ∈ ls, ∀ b ∈ ls, keyVals k a = keyVals k b →
          (keyVals k a).isSome → a = b := fun a ha b hb =>
        huL a (List.mem_cons_of_mem l ha) b (List.mem_cons_of_mem l hb)
      have hprobe : probe cfg.matchKeys l rights =
          rights.filter (fun r => keyMatches k l r) := by
        rw [hks, probe_single]
      have hlen := filter_key_len_le_one k l hnr huR
      rcases hf : rights.filter (fun r => keyMatches k l r) with _ | ⟨c, cs⟩
      · have hstep : matchStep cfg l rights = (.UnmatchedLeft l, rights) := by
          unfold matchStep
          rw [hprobe, hf]
        have hone : oneStep cfg k rights l = .UnmatchedLeft l := by
          unfold oneStep
          rw [mateIn_none_of_filter_nil hf]
        have hnomatch : ∀ r ∈ rights, keyMatches k l r = false := by
          intro r hr
          have := List.filter_eq_nil_iff.mp hf r hr
          exact Bool.not_eq_true _ ▸ (by simpa using this)
        rw [runMatcherAux_cons, hstep]
        rw [ih rights hnls hnr huLs huR]
        refine congrArg₂ Prod.mk ?_ ?_
        · rw [List.map_cons, hone]
        · refine (List.filter_congr ?_).symm
          intro r hr
          rw [List.any_cons, hnomatch r hr]
          simp
      · have hcs : cs = [] := by
          rw [hf] at hlen
          simpa using hlen
        subst hcs
        have hstep : matchStep cfg l rights =
            (.Matched l c ((compareFields cfg l c).all (fun d => d.within))
                (compareFields cfg l c),
              rights.filter (fun r => decide (r ≠ c))) := by
          unfold matchStep
          rw [hprobe, hf]
        have hone : oneStep cfg k rights l = .Matched l c
            ((compareFields cfg l c).all (fun d => d.within))
            (compareFields cfg l c) := by
          unfold oneStep
          rw [mateIn_some_of_filter_cons hf]
        have hcmem : c ∈ rights ∧ keyMatches k l c = true := by
          have := List.mem_filter.mp (hf ▸ List.mem_cons_self c [])
          exact ⟨this.1, this.2⟩
        have hkeyc : ∀ x ∈ ls, keyMatches k x c = false := by
          intro x hx
          by_contra hxc
          have hxc2 : keyMatches k x c = true := by
            cases h2 : keyMatches k x c
            · exact absurd h2 hxc
            · rfl
          obtain ⟨v, hv1, hv2⟩ := keyMatches_some k x c hxc2
          obtain ⟨w, hw1, hw2⟩ := keyMatches_some k l c hcmem.2
          have hvw : v = w := Option.some.inj (hv2.symm.trans hw2)
          subst hvw
          have : x = l := huL x (List.mem_cons_of_mem l hx) l
            (List.mem_cons_self l ls) (by rw [hv1, hw1]) (by rw [hv1]; rfl)
          exact hll (this ▸ hx)
        have hnr2 : (rights.filter (fun r => decide (r ≠ c))).Nodup :=
          hnr.filter _
        have huR2 : ∀ a ∈ rights.filter (fun r => decide (r ≠ c)),
            ∀ b ∈ rights.filter (fun r => decide (r ≠ c)),
            keyVals k a = keyVals k b → (keyVals k a).isSome → a = b :=
          fun a ha b hb => huR a (List.mem_filter.mp ha).1 b (List.mem_filter.mp hb).1
        rw [runMatcherAux_cons, hstep]
        rw [ih (rights.filter (fun r => decide (r ≠ c))) hnls hnr2 huLs huR2]
        refine congrArg₂ Prod.mk ?_ ?_
        · rw [List.map_cons, hone]
          refine congrArg₂ List.cons rfl ?_
          refine List.map_congr_left ?_
          intro x hx
          unfold oneStep
          rw [mateIn_congr_pools (filter_filter_ne (hkeyc x hx) rights)]
        · rw [List.filter_filter]
          refine List.filter_congr ?_
          intro r hr
          by_cases hrc : r = c
          · subst hrc
            rw [List.any_cons, hcmem.2]
            simp
          · have hklr : keyMatches k l r = false := by
              by_contra hx
              have hx2 : keyMatches k l r = true := by
                cases h2 : keyMatches k l r
                · exact absurd h2 hx
                · rfl
              have : r ∈ rights.filter (fun y => keyMatches k l y) :=
                List.mem_filter.mpr ⟨hr, hx2⟩
              rw [hf] at this
              exact hrc (by simpa using this)
            rw [List.any_cons, hklr]
            simp [hrc]

theorem runMatcher_single_char (cfg : MatchConfig) (k : MatchKey)
    (hks : cfg.matchKeys = [k]) (lefts rights : List TradeRecord)
    (hnl : lefts.Nodup) (hnr : rights.Nodup)
    (huL : ∀ a ∈ lefts, ∀ b ∈ lefts, keyVals k a = keyVals k b →
      (keyVals k a).isSome → a = b)
    (huR : ∀ a ∈ rights, ∀ b ∈ rights, keyVals k a = keyVals k b →
      (keyVals k a).isSome → a = b) :
    runMatcher cfg lefts rights =
      lefts.map (oneStep cfg k rights) ++
        (rights.filter (fun r => !lefts.any (fun x => keyMatches k x r))).map
          MatchResult.UnmatchedRight := by
  unfold runMatcher
  rw [runMatcherAux_single_char cfg k hks lefts rights hnl hnr huL huR]

theorem mateIn_some_mem {k : MatchKey} {pool : List TradeRecord}
    {x c : TradeRecord} (h : mateIn k pool x = some c) :
    c ∈ pool ∧ keyMatches k x c = true := by
  unfold mateIn at h
  rcases hf : pool.filter (fun y => keyMatches k x y) with _ | ⟨a, t⟩ <;> rw [hf] at h
  · cases h
  · have hm := List.mem_filter.mp (hf ▸ List.mem_cons_self a t)
    have hac : a = c := Option.some.inj h
    subst hac
    exact hm

theorem mateIn_eq_some_of_unique (k : MatchKey) {pool : List TradeRecord}
    {x c : TradeRecord}
    (hall : ∀ a ∈ pool.filter (fun y => keyMatches k x y),
      ∀ b ∈ pool.filter (fun y => keyMatches k x y), a = b)
    (hc : c ∈ pool) (hm : keyMatches k x c = true) :
    mateIn k pool x = some c := by
  rcases hf : pool.filter (fun y => keyMatches k x y) with _ | ⟨a, t⟩
  · exfalso
    have hcf : c ∈ pool.filter (fun y => keyMatches k x y) :=
      List.mem_filter.mpr ⟨hc, hm⟩
    rw [hf] at hcf
    cases hcf
  · have ha : a ∈ pool.filter (fun y => keyMatches k x y) :=
      hf ▸ List.mem_cons_self a t
    have hcf : c ∈ pool.filter (fun y => keyMatches k x y) :=
      List.mem_filter.mpr ⟨hc, hm⟩
    rw [mateIn_some_of_filter_cons hf, hall a ha c hcf]

theorem unmated_pred (k : MatchKey) (pool : List TradeRecord) (x : TradeRecord) :
    (!pool.any (fun y => keyMatches k y x)) = !(mateIn k pool x).isSome := by
  congr 1
  rcases hf : pool.filter (fun y => keyMatches k x y) with _ | ⟨a, t⟩
  · rw [mateIn_none_of_filter_nil hf]
    simp only [Option.isSome_none]
    rw [List.any_eq_false]
    intro y hy
    have := List.filter_eq_nil_iff.mp hf y hy
    rw [keyMatches_symm]
    simpa using this
  · rw [mateIn_some_of_filter_cons hf]
    simp only [Option.isSome_some]
    rw [List.any_eq_true]
    have hm := List.mem_filter.mp (hf ▸ List.mem_cons_self a t)
    exact ⟨a, hm.1, by rw [keyMatches_symm]; exact hm.2⟩

theorem mated_dual (k : MatchKey)
    {lefts rights : List TradeRecord}
    (huL : ∀ a ∈ lefts, ∀ b ∈ lefts, keyVals k a = keyVals k b →
      (keyVals k a).isSome → a = b)
    {x c : TradeRecord} (hx : x ∈ lefts)
    (hmx : mateIn k rights x = some c) :
    c ∈ rights ∧ mateIn k lefts c = some x := by
  obtain ⟨hcr, hkm⟩ := mateIn_some_mem hmx
  refine ⟨hcr, ?_⟩
  refine mateIn_eq_some_of_unique k (filter_key_all_eq k c huL) hx ?_
  rw [keyMatches_symm]
  exact hkm

theorem classify_unmatchedRight_relabel (cfg : MatchConfig) (r : TradeRecord) :
    (classifyResult cfg (MatchResult.UnmatchedRight r)).map relabelSwap =
      classifyResult cfg (MatchResult.UnmatchedLeft r) := rfl

theorem classify_oneStep_unmated_relabel (cfg : MatchConfig) (k : MatchKey)
    (rights : List TradeRecord) (x : TradeRecord)
    (hmx : mateIn k rights x = none) :
    (classifyResult cfg (oneStep cfg k rights x)).map relabelSwap =
      classifyResult cfg (MatchResult.UnmatchedRight x) := by
  unfold oneStep
  rw [hmx]
  rfl

theorem classify_oneStep_mated_relabel (cfg : MatchConfig) (k : MatchKey)
    (hrules : ∀ ru ∈ cfg.toleranceRules, ru.kind ≠ ToleranceKind.PCT_DELTA)
    (lefts rights : List TradeRecord) (x c : TradeRecord)
    (hmx : mateIn k rights x = some c) (hmc : mateIn k lefts c = some x) :
    (classifyResult cfg (oneStep cfg k rights x)).map relabelSwap =
      classifyResult cfg (oneStep cfg k lefts c) := by
  unfold oneStep
  rw [hmx, hmc]
  show Option.map relabelSwap (classifyResult cfg (MatchResult.Matched x c
      ((compareFields cfg x c).all (fun d => d.within)) (compareFields cfg x c))) =
    classifyResult cfg (MatchResult.Matched c x
      ((compareFields cfg c x).all (fun d => d.within)) (compareFields cfg c x))
  rw [compareFields_symm cfg hrules c x]
  cases hw : (compareFields cfg x c).all (fun d => d.within) <;> rfl

theorem mated_map_perm (k : MatchKey)
    {lefts rights : List TradeRecord}
    (hnl : lefts.Nodup) (hnr : rights.Nodup)
    (huL : ∀ a ∈ lefts, ∀ b ∈ lefts, keyVals k a = keyVals k b →
      (keyVals k a).isSome → a = b)
    (huR : ∀ a ∈ rights, ∀ b ∈ rights, keyVals k a = keyVals k b →
      (keyVals k a).isSome → a = b) :
    List.Perm ((lefts.filter (fun x => (mateIn k rights x).isSome)).map
        (mateFun k rights))
      (rights.filter (fun c => (mateIn k lefts c).isSome)) := by
  have hmem : ∀ x ∈ lefts.filter (fun x => (mateIn k rights x).isSome),
      ∃ c, mateIn k rights x = some c ∧ mateFun k rights x = c := by
    intro x hx
    obtain ⟨-, hs⟩ := List.mem_filter.mp hx
    obtain ⟨c, hc⟩ := Option.isSome_iff_exists.mp hs
    exact ⟨c, hc, by unfold mateFun; rw [hc]; rfl⟩
  refine (List.perm_ext_iff_of_nodup ?_ ?_).mpr ?_
  · refine List.Nodup.map_on ?_ (hnl.filter _)
    intro x1 h1 x2 h2 hf
    obtain ⟨c1, hc1, hm1⟩ := hmem x1 h1
    obtain ⟨c2, hc2, hm2⟩ := hmem x2 h2
    have hcc : c1 = c2 := by rw [← hm1, ← hm2, hf]
    subst hcc
    obtain ⟨v1, hv1, hv2⟩ := keyMatches_some k x1 c1 (mateIn_some_mem hc1).2
    obtain ⟨w1, hw1, hw2⟩ := keyMatches_some k x2 c1 (mateIn_some_mem hc2).2
    have hvw : v1 = w1 := Option.some.inj (hv2.symm.trans hw2)
    subst hvw
    exact huL x1 (List.mem_filter.mp h1).1 x2 (List.mem_filter.mp h2).1
      (by rw [hv1, hw1]) (by rw [hv1]; rfl)
  · exact hnr.filter _
  · intro c
    constructor
    · intro hc
      obtain ⟨x, hx, hxc⟩ := List.mem_map.mp hc
      obtain ⟨c2, hc2, hm2⟩ := hmem x hx
      have hcc : c2 = c := by rw [← hm2, hxc]
      subst hcc
      obtain ⟨hcr, hdual⟩ :=
        mated_dual k huL (List.mem_filter.mp hx).1 hc2
      exact List.mem_filter.mpr ⟨hcr, by rw [hdual]; rfl⟩
    · intro hc
      obtain ⟨hcr, hs⟩ := List.mem_filter.mp hc
      obtain ⟨x, hx⟩ := Option.isSome_iff_exists.mp hs
      obtain ⟨hxl, hkm⟩ := mateIn_some_mem hx
      have hback : mateIn k rights x = some c := by
        refine mateIn_eq_some_of_unique k (filter_key_all_eq k x huR) hcr ?_
        rw [keyMatches_symm]
        exact hkm
      refine List.mem_map.mpr ⟨x, ?_, ?_⟩
      · exact List.mem_filter.mpr ⟨hxl, by rw [hback]; rfl⟩
      · unfold mateFun
        rw [hback]
        rfl

/-- C9 amended: for configurations with a single match key, duplicate-free
records and key values on each side, and no PCT_DELTA rules, swapping the
two sides of a 2-way match yields the same multiset of Exceptions modulo
relabeling MISSING_LEFT as MISSING_RIGHT and vice versa (with the record
pair order inside a FIELD_MISMATCH reversed accordingly). -/
theorem matcher_symmetry_amended (cfg : MatchConfig) (k : MatchKey)
    (lefts rights : List TradeRecord)
    (hks : cfg.matchKeys = [k]) (hnl : lefts.Nodup) (hnr : rights.Nodup)
    (huL : ∀ a ∈ lefts, ∀ b ∈ lefts, keyVals k a = keyVals k b →
      (keyVals k a).isSome → a = b)
    (huR : ∀ a ∈ rights, ∀ b ∈ rights, keyVals k a = keyVals k b →
      (keyVals k a).isSome → a = b)
    (hrules : ∀ ru ∈ cfg.toleranceRules, ru.kind ≠ ToleranceKind.PCT_DELTA) :
    List.Perm (exceptionsPre cfg (runMatcher cfg rights lefts))
      ((exceptionsPre cfg (runMatcher cfg lefts rights)).map relabelSwap) := by
  rw [runMatcher_single_char cfg k hks rights lefts hnr hnl huR huL,
    runMatcher_single_char cfg k hks lefts rights hnl hnr huL huR]
  unfold exceptionsPre
  rw [List.filterMap_append, List.filterMap_append, List.map_append]
  rw [List.filterMap_map, List.filterMap_map, List.filterMap_map, List.filterMap_map]
  rw [List.map_filterMap, List.map_filterMap]
  have hfL : lefts.filter (fun r => !rights.any (fun x => keyMatches k x r)) =
      lefts.filter (fun x => !(mateIn k rights x).isSome) :=
    List.filter_congr (fun x _ => unmated_pred k rights x)
  have hfR : rights.filter (fun r => !lefts.any (fun x => keyMatches k x r)) =
      rights.filter (fun c => !(mateIn k lefts c).isSome) :=
    List.filter_congr (fun c _ => unmated_pred k lefts c)
  rw [hfL, hfR]
  have htailR : (rights.filter (fun c => !(mateIn k lefts c).isSome)).filterMap
      (fun r => ((classifyResult cfg ∘ MatchResult.UnmatchedRight) r).map relabelSwap) =
      (rights.filter (fun c => !(mateIn k lefts c).isSome)).filterMap
        (classifyResult cfg ∘ MatchResult.UnmatchedLeft) :=
    filterMap_congr_mem (fun r _ => classify_unmatchedRight_relabel cfg r)
  rw [htailR]
  have hsplitR : List.Perm
      (rights.filterMap (classifyResult cfg ∘ oneStep cfg k lefts))
      ((rights.filter (fun c => (mateIn k lefts c).isSome)).filterMap
          (classifyResult cfg ∘ oneStep cfg k lefts) ++
        (rights.filter (fun c => !(mateIn k lefts c).isSome)).filterMap
          (classifyResult cfg ∘ oneStep cfg k lefts)) := by
    rw [← List.filterMap_append]
    exact List.Perm.filterMap _ (List.filter_append_perm _ rights).symm
  have hunmatedR : (rights.filter (fun c => !(mateIn k lefts c).isSome)).filterMap
      (classifyResult cfg ∘ oneStep cfg k lefts) =
      (rights.filter (fun c => !(mateIn k lefts c).isSome)).filterMap
        (classifyResult cfg ∘ MatchResult.UnmatchedLeft) := by
    refine filterMap_congr_mem ?_
    intro r hr
    obtain ⟨-, hs⟩ := List.mem_filter.mp hr
    have hnone : mateIn k lefts r = none :=
      Option.not_isSome_iff_eq_none.mp (by simpa using hs)
    simp only [Function.comp_apply]
    unfold oneStep
    rw [hnone]
  have hsplitL : List.Perm
      (lefts.filterMap (fun x =>
        ((classifyResult cfg ∘ oneStep cfg k rights) x).map relabelSwap))
      ((lefts.filter (fun x => (mateIn k rights x).isSome)).filterMap (fun x =>
          ((classifyResult cfg ∘ oneStep cfg k rights) x).map relabelSwap) ++
        (lefts.filter (fun x => !(mateIn k rights x).isSome)).filterMap (fun x =>
          ((classifyResult cfg ∘ oneStep cfg k rights) x).map relabelSwap)) := by
    rw [← List.filterMap_append]
    exact List.Perm.filterMap _ (List.filter_append_perm _ lefts).symm
  have hunmatedL : (lefts.filter (fun x => !(mateIn k rights x).isSome)).filterMap
      (fun x => ((classifyResult cfg ∘ oneStep cfg k rights) x).map relabelSwap) =
      (lefts.filter (fun x => !(mateIn k rights x).isSome)).filterMap
        (classifyResult cfg ∘ MatchResult.UnmatchedRight) := by
    refine filterMap_congr_mem ?_
    intro x hx
    obtain ⟨-, hs⟩ := List.mem_filter.mp hx
    have hnone : mateIn k rights x = none :=
      Option.not_isSome_iff_eq_none.mp (by simpa using hs)
    simp only [Function.comp_apply]
    exact classify_oneStep_unmated_relabel cfg k rights x hnone
  have hmated : (lefts.filter (fun x => (mateIn k rights x).isSome)).filterMap
      (fun x => ((classifyResult cfg ∘ oneStep cfg k rights) x).map relabelSwap) =
      ((lefts.filter (fun x => (mateIn k rights x).isSome)).map
          (mateFun k rights)).filterMap
        (classifyResult cfg ∘ oneStep cfg k lefts) := by
    rw [List.filterMap_map]
    refine filterMap_congr_mem ?_
    intro x hx
    obtain ⟨hxl, hs⟩ := List.mem_filter.mp hx
    obtain ⟨c, hc⟩ := Option.isSome_iff_exists.mp (by simpa using hs)
    have hdual := mated_dual k huL hxl hc
    have hmf : mateFun k rights x = c := by
      unfold mateFun; rw [hc]; rfl
    simp only [Function.comp_apply, hmf]
    exact classify_oneStep_mated_relabel cfg k hrules lefts rights x c hc hdual.2
  have hmperm : List.Perm
      (((lefts.filter (fun x => (mateIn k rights x).isSome)).map
          (mateFun k rights)).filterMap
        (classifyResult cfg ∘ oneStep cfg k lefts))
      ((rights.filter (fun c => (mateIn k lefts c).isSome)).filterMap
        (classifyResult cfg ∘ oneStep cfg k lefts)) :=
    List.Perm.filterMap _ (mated_map_perm k hnl hnr huL huR)
  have hA : List.Perm
      (rights.filterMap (classifyResult cfg ∘ oneStep cfg k lefts))
      ((rights.filter (fun c => (mateIn k lefts c).isSome)).filterMap
          (classifyResult cfg ∘ oneStep cfg k lefts) ++
        (rights.filter (fun c => !(mateIn k lefts c).isSome)).filterMap
          (classifyResult cfg ∘ MatchResult.UnmatchedLeft)) := by
    rw [← hunmatedR]
    exact hsplitR
  have hC : List.Perm
      (lefts.filterMap (fun x =>
        ((classifyResult cfg ∘ oneStep cfg k rights) x).map relabelSwap))
      (((lefts.filter (fun x => (mateIn k rights x).isSome)).map
          (mateFun k rights)).filterMap
          (classifyResult cfg ∘ oneStep cfg k lefts) ++
        (lefts.filter (fun x => !(mateIn k rights x).isSome)).filterMap
          (classifyResult cfg ∘ MatchResult.UnmatchedRight)) := by
    rw [← hmated, ← hunmatedL]
    exact hsplitL
  refine ((hA.append_right _).trans ?_).trans (hC.append_right _).symm
  rw [List.append_assoc, List.append_assoc]
  refine List.Perm.trans (List.Perm.append_left _ List.perm_append_comm) ?_
  rw [← List.append_assoc, ← List.append_assoc]
  exact (hmperm.symm.append_right _).append_right _

/-- Witness for C9 (amended): the worked one-pair scenario, swapped. -/
theorem matcher_symmetry_amended_witness :
    List.Perm (exceptionsPre cfgEx (runMatcher cfgEx [recT1R] [recT1L]))
      ((exceptionsPre cfgEx (runMatcher cfgEx [recT1L] [recT1R])).map relabelSwap) :=
  matcher_symmetry_amended cfgEx ⟨["trade_id"], 0⟩ [recT1L] [recT1R] (by decide)
    (by decide) (by decide) (by decide) (by decide) (by decide)

/-- Witness for C10: a key present only in the second row is omitted from
every line, a comma-bearing string is quoted, and an embedded double quote
is not escaped. -/
theorem downloadCSV_shape_witness :
    csvContent [[("a", CsvValue.str "x,y")], [("a", CsvValue.raw "2"), ("b", CsvValue.raw "9")]] =
      some (String.intercalate "\n"
        (String.intercalate "," ([("a", CsvValue.str "x,y")].map (fun p => p.1)) ::
          [[("a", CsvValue.str "x,y")], [("a", CsvValue.raw "2"), ("b", CsvValue.raw "9")]].map
            (fun row => renderLine ([("a", CsvValue.str "x,y")].map (fun p => p.1)) row))) ∧
    renderCell [("a", CsvValue.str "x,y")] "a" = "\"" ++ "x,y" ++ "\"" ∧
    renderCell [("q", CsvValue.str "he\"llo")] "q" = "he\"llo" :=
  ⟨downloadCSV_shape.2.1 [("a", CsvValue.str "x,y")]
      [[("a", CsvValue.raw "2"), ("b", CsvValue.raw "9")]],
    downloadCSV_shape.2.2.1 [("a", CsvValue.str "x,y")] "a" "x,y" (by decide) (by decide),
    downloadCSV_shape.2.2.2.1 [("q", CsvValue.str "he\"llo")] "q" "he\"llo"
      (by decide) (by decide)⟩

end OpsPilot
